import Mathlib

/-!
Shallow embedding of the `WalletSystem` class (wallet.py) of the
DigitalWallet repository.

Modelling choices:
* Python `dict`s become association lists `List (String × β)`; assignment
  `d[k] = v` updates the first occurrence of `k` in place or appends a fresh
  entry at the end, exactly like insertion-ordered Python dicts
  (`Wallet.setA`).  Key uniqueness (invariant I1, guaranteed by `dict`) is the
  well-formedness hypothesis `Nodup` on the key list where a proof needs it.
* Monetary amounts and rates are exact rationals `ℚ`; the reference code uses
  Python floats with tolerance comparisons, and its float-overflow guards
  (`x < float('inf')`) are vacuous over `ℚ`, hence not part of the guards.
* `uuid.uuid4()` is modelled by a fresh-id counter `nextId` and `time.time()`
  by a monotone counter `clock`, both threaded through the state; this keeps
  ids unique and timestamps non-decreasing, which is all the code relies on.
* String checks are phrased over `String.toList` so they stay computable by
  the kernel: `'@' in email` becomes `'@' ∈ email.toList`, and
  `bank_account.startswith("PT")` becomes `bank_account.toList.take 2 =
  "PT".toList` (the first two characters are P, T).
* Every Python `assert` that guards an operation becomes an explicit test in
  the corresponding Lean function, in the same order and with the same
  message; a failed assert raises (no mutation has happened yet), modelled by
  `Except.error`.  The code's trailing postcondition asserts are consequences
  of the definitions and are proved as theorems instead of being re-executed.
-/

namespace Wallet

/-- Values a transaction field can carry, for the equality filters of
`track_transactions` (`t.get(k) == v` in the code). -/
inductive TVal where
  | s (v : String)
  | q (v : ℚ)
  | n (v : ℕ)
deriving DecidableEq, Repr

/-- A transaction record, one Python dict appended to `self.transactions`.
Optional fields are those that only some transaction types carry
(`user_id`, `from`, `to`, `destination`). -/
structure Tx where
  id : ℕ
  type : String
  user_id : Option String
  amount : ℚ
  timestamp : ℕ
  status : String
  fromUser : Option String
  toUser : Option String
  destination : Option String
deriving DecidableEq, Repr

/-- Python `t.get(k)` on a transaction dict: the named field, or `none` when
the field is absent or the key unknown. -/
def Tx.get (t : Tx) (k : String) : Option TVal :=
  if k = "id" then some (.n t.id)
  else if k = "type" then some (.s t.type)
  else if k = "user_id" then t.user_id.map .s
  else if k = "amount" then some (.q t.amount)
  else if k = "timestamp" then some (.n t.timestamp)
  else if k = "status" then some (.s t.status)
  else if k = "from" then t.fromUser.map .s
  else if k = "to" then t.toUser.map .s
  else if k = "destination" then t.destination.map .s
  else none

/-- A payment method dict: a required `type` tag plus type-specific fields. -/
structure PaymentMethod where
  type : String
  fields : List (String × TVal)
deriving DecidableEq, Repr

/-- A spending-limit record `{daily, monthly, daily_used, monthly_used}`. -/
structure SpendingLimit where
  daily : Option ℚ
  monthly : Option ℚ
  daily_used : ℚ
  monthly_used : ℚ
deriving DecidableEq, Repr

/-- Association-list lookup: `d.get(k)` / `d[k]` on a Python dict. -/
def lookupA {β : Type} : List (String × β) → String → Option β
  | [], _ => none
  | p :: l, k => if p.1 = k then some p.2 else lookupA l k

/-- Association-list store: `d[k] = v` on an insertion-ordered Python dict —
update the first occurrence in place, or append a fresh entry at the end. -/
def setA {β : Type} : List (String × β) → String → β → List (String × β)
  | [], k, v => [(k, v)]
  | p :: l, k, v => if p.1 = k then (k, v) :: l else p :: setA l k v

/-- Membership test `k in d` on a Python dict. -/
def containsA {β : Type} (l : List (String × β)) (k : String) : Bool :=
  (lookupA l k).isSome

/-- The whole mutable state of a `WalletSystem` instance, plus the modelled
id/clock sources (`uuid.uuid4()`, `time.time()`). -/
structure WalletSystem where
  balances : List (String × ℚ)
  transactions : List Tx
  user_pins : List (String × String)
  payment_methods : List (String × List PaymentMethod)
  spending_limits : List (String × SpendingLimit)
  nextId : ℕ
  clock : ℕ
deriving DecidableEq, Repr

/-- `WalletSystem.__init__`: every map empty. -/
def initWallet : WalletSystem :=
  { balances := [], transactions := [], user_pins := [], payment_methods := []
  , spending_limits := [], nextId := 0, clock := 0 }

/-- Sum of the balances map's values, `sum(self.balances.values())`. -/
def sumBal (l : List (String × ℚ)) : ℚ :=
  (l.map Prod.snd).sum

/-- `create_account(user_id, email, password)`. -/
def WalletSystem.create_account (s : WalletSystem) (user_id email password : String) :
    Except String WalletSystem :=
  if user_id = "" then .error "R1 violated: Invalid user_id"
  else if containsA s.balances user_id then .error "R2 violated: User already exists"
  else if ¬ (email ≠ "" ∧ '@' ∈ email.toList) then .error "R3 violated: Invalid email"
  else if ¬ (password ≠ "" ∧ 6 ≤ password.length) then .error "R4 violated: Password too weak"
  else .ok { s with balances := setA s.balances user_id 0 }

/-- `set_pin(user_id, pin)`. -/
def WalletSystem.set_pin (s : WalletSystem) (user_id pin : String) :
    Except String WalletSystem :=
  if ¬ containsA s.balances user_id then .error "R1 violated: User must exist"
  else if pin = "" then .error "R2 violated: Invalid PIN"
  else if ¬ (4 ≤ pin.length ∧ pin.length ≤ 8) then .error "R3 violated: PIN length must be 4-8"
  else if ¬ (pin.toList.all Char.isDigit) then .error "R4 violated: PIN must contain only digits"
  else .ok { s with user_pins := setA s.user_pins user_id pin }

/-- `authenticate_pin(user_id, pin)`: pure read, returns the comparison of the
stored pin (possibly absent) with the argument, and the untouched state. -/
def WalletSystem.authenticate_pin (s : WalletSystem) (user_id pin : String) :
    Except String (Bool × WalletSystem) :=
  if ¬ containsA s.balances user_id then .error "R1 violated: User must exist"
  else
    let expected := lookupA s.user_pins user_id
    .ok (expected == some pin, s)

/-- `add_funds(user_id, amount)`. -/
def WalletSystem.add_funds (s : WalletSystem) (user_id : String) (amount : ℚ) :
    Except String WalletSystem :=
  if ¬ containsA s.balances user_id then .error "R1 violated: User must exist"
  else if ¬ (0 < amount) then .error "R2 violated: Amount must be positive"
  else if ¬ (amount ≤ 1000000) then .error "R3 violated: Amount exceeds safety limit"
  else
    let before := (lookupA s.balances user_id).getD 0
    .ok { s with
          balances := setA s.balances user_id (before + amount)
        , transactions := s.transactions ++
            [{ id := s.nextId, type := "deposit", user_id := some user_id
             , amount := amount, timestamp := s.clock, status := "completed"
             , fromUser := none, toUser := none, destination := none }]
        , nextId := s.nextId + 1, clock := s.clock + 1 }

/-- `withdraw_funds(user_id, bank_account, amount)`. -/
def WalletSystem.withdraw_funds (s : WalletSystem) (user_id bank_account : String)
    (amount : ℚ) : Except String WalletSystem :=
  if ¬ containsA s.balances user_id then .error "R1 violated: User must exist"
  else if ¬ (bank_account.toList.take 2 = "PT".toList ∧ 10 ≤ bank_account.length) then
    .error "R2 violated: Invalid bank account"
  else if ¬ (0 < amount ∧ amount ≤ 10000) then .error "R3 violated: Invalid withdrawal amount"
  else if ¬ (amount ≤ (lookupA s.balances user_id).getD 0) then
    .error "R4 violated: Insufficient balance"
  else if ¬ (0 ≤ (lookupA s.balances user_id).getD 0 - amount) then
    .error "R5 violated: Would result in negative balance"
  else
    let before := (lookupA s.balances user_id).getD 0
    .ok { s with
          balances := setA s.balances user_id (before - amount)
        , transactions := s.transactions ++
            [{ id := s.nextId, type := "withdrawal", user_id := some user_id
             , amount := amount, timestamp := s.clock, status := "completed"
             , fromUser := none, toUser := none, destination := some bank_account }]
        , nextId := s.nextId + 1, clock := s.clock + 1 }

/-- `transfer(sender, receiver, amount)`. -/
def WalletSystem.transfer (s : WalletSystem) (sender receiver : String) (amount : ℚ) :
    Except String WalletSystem :=
  if ¬ (containsA s.balances sender ∧ containsA s.balances receiver) then
    .error "R1 violated: Both users must exist"
  else if sender = receiver then .error "R2 violated: Sender and receiver must be different"
  else if ¬ (0 < amount) then .error "R3 violated: Amount must be positive"
  else if ¬ (amount ≤ (lookupA s.balances sender).getD 0) then
    .error "R4 violated: Insufficient funds"
  else
    let old_sender := (lookupA s.balances sender).getD 0
    let old_receiver := (lookupA s.balances receiver).getD 0
    .ok { s with
          balances := setA (setA s.balances sender (old_sender - amount)) receiver
            (old_receiver + amount)
        , transactions := s.transactions ++
            [{ id := s.nextId, type := "transfer", user_id := none
             , amount := amount, timestamp := s.clock, status := "completed"
             , fromUser := some sender, toUser := some receiver, destination := none }]
        , nextId := s.nextId + 1, clock := s.clock + 1 }

/-- One iteration of the `for user_id in list(self.balances.keys())` loop of
`apply_interest`: credit `balance * rate` and append one `interest`
transaction. -/
def interestStep (rate : ℚ) (s : WalletSystem) (user_id : String) : WalletSystem :=
  let old := (lookupA s.balances user_id).getD 0
  let interest := old * rate
  { s with
    balances := setA s.balances user_id (old + interest)
  , transactions := s.transactions ++
      [{ id := s.nextId, type := "interest", user_id := some user_id
       , amount := interest, timestamp := s.clock, status := "completed"
       , fromUser := none, toUser := none, destination := none }]
  , nextId := s.nextId + 1, clock := s.clock + 1 }

/-- `apply_interest(rate)`: iterate the snapshot of the key list. -/
def WalletSystem.apply_interest (s : WalletSystem) (rate : ℚ) :
    Except String WalletSystem :=
  if ¬ (0 < rate ∧ rate ≤ 1/5) then .error "R1 violated: Invalid interest rate"
  else .ok ((s.balances.map Prod.fst).foldl (interestStep rate) s)

/-- Test `x is None or x > 0` on an optional limit. -/
def posLimit : Option ℚ → Bool
  | none => true
  | some x => decide (0 < x)

/-- Test `daily is not None and monthly is not None and daily > monthly`. -/
def dailyExceedsMonthly : Option ℚ → Option ℚ → Bool
  | some d, some m => decide (m < d)
  | _, _ => false

/-- `set_spending_limits(user_id, daily, monthly)`. -/
def WalletSystem.set_spending_limits (s : WalletSystem) (user_id : String)
    (daily monthly : Option ℚ) : Except String WalletSystem :=
  if ¬ containsA s.balances user_id then .error "R1 violated: User must exist"
  else if ¬ (posLimit daily ∧ posLimit monthly) then
    .error "R2 violated: Limits must be positive or None"
  else if dailyExceedsMonthly daily monthly then
    .error "R3 violated: Daily limit exceeds monthly"
  else
    let rec0 : SpendingLimit :=
      { daily := daily, monthly := monthly, daily_used := 0, monthly_used := 0 }
    .ok { s with spending_limits := setA s.spending_limits user_id rec0 }

/-- `add_payment_method(user_id, method)`. -/
def WalletSystem.add_payment_method (s : WalletSystem) (user_id : String)
    (method : PaymentMethod) : Except String WalletSystem :=
  if ¬ containsA s.balances user_id then .error "R1 violated: User must exist"
  else if ¬ (method.type = "card" ∨ method.type = "bank_account" ∨ method.type = "paypal") then
    .error "R3 violated: Invalid payment type"
  else
    let methods := ((lookupA s.payment_methods user_id).getD []) ++ [method]
    .ok { s with payment_methods := setA s.payment_methods user_id methods }

/-- `get_payment_methods(user_id)`: pure read. -/
def WalletSystem.get_payment_methods (s : WalletSystem) (user_id : String) :
    Except String (List PaymentMethod × WalletSystem) :=
  if ¬ containsA s.balances user_id then .error "R1 violated: User must exist"
  else .ok ((lookupA s.payment_methods user_id).getD [], s)

/-- `track_transactions(user_id, filters, page, page_size)`: pure read.
Filters the transactions involving the user, applies the equality filters,
sorts by timestamp descending (stable, like Python `list.sort(reverse=True)`)
and returns the requested page slice. -/
def WalletSystem.track_transactions (s : WalletSystem) (user_id : String)
    (filters : List (String × TVal)) (page page_size : ℕ) :
    Except String (List Tx × WalletSystem) :=
  if ¬ containsA s.balances user_id then .error "R1 violated: User must exist"
  else if ¬ (1 ≤ page) then .error "R2 violated: Page must be >= 1"
  else if ¬ (1 ≤ page_size ∧ page_size ≤ 100) then .error "R3 violated: Invalid page size"
  else
    let txs := s.transactions.filter (fun t =>
      t.get "user_id" == some (.s user_id) || t.get "from" == some (.s user_id) ||
      t.get "to" == some (.s user_id))
    let txs := filters.foldl
      (fun acc kv => acc.filter (fun t => t.get kv.1 == some kv.2)) txs
    let sorted := txs.mergeSort (fun a b => b.timestamp ≤ a.timestamp)
    let start := (page - 1) * page_size
    .ok ((sorted.drop start).take page_size, s)

/-- `real_time_update(user_id, amount)`: signed credit/debit. -/
def WalletSystem.real_time_update (s : WalletSystem) (user_id : String) (amount : ℚ) :
    Except String WalletSystem :=
  if ¬ containsA s.balances user_id then .error "R1 violated: User must exist"
  else if amount = 0 then .error "R2 violated: Amount cannot be zero"
  else if ¬ (0 < amount ∨ |amount| ≤ (lookupA s.balances user_id).getD 0) then
    .error "R3 violated: Insufficient balance for debit"
  else if ¬ (0 ≤ (lookupA s.balances user_id).getD 0 + amount) then
    .error "R4 violated: Would result in negative balance"
  else
    let before := (lookupA s.balances user_id).getD 0
    .ok { s with
          balances := setA s.balances user_id (before + amount)
        , transactions := s.transactions ++
            [{ id := s.nextId, type := if 0 < amount then "credit" else "debit"
             , user_id := some user_id, amount := amount, timestamp := s.clock
             , status := "completed", fromUser := none, toUser := none
             , destination := none }]
        , nextId := s.nextId + 1, clock := s.clock + 1 }

/-- The public operations of `WalletSystem`, as one step alphabet. -/
inductive Op where
  | create_account (user_id email password : String)
  | set_pin (user_id pin : String)
  | authenticate_pin (user_id pin : String)
  | add_funds (user_id : String) (amount : ℚ)
  | withdraw_funds (user_id bank_account : String) (amount : ℚ)
  | transfer (sender receiver : String) (amount : ℚ)
  | apply_interest (rate : ℚ)
  | set_spending_limits (user_id : String) (daily monthly : Option ℚ)
  | add_payment_method (user_id : String) (method : PaymentMethod)
  | get_payment_methods (user_id : String)
  | track_transactions (user_id : String) (filters : List (String × TVal))
      (page page_size : ℕ)
  | real_time_update (user_id : String) (amount : ℚ)
deriving DecidableEq

/-- One public call: the new state on success, the assert message on
rejection (query results are projected away). -/
def step (op : Op) (s : WalletSystem) : Except String WalletSystem :=
  match op with
  | .create_account uid email pw => s.create_account uid email pw
  | .set_pin uid pin => s.set_pin uid pin
  | .authenticate_pin uid pin => (s.authenticate_pin uid pin).map Prod.snd
  | .add_funds uid amount => s.add_funds uid amount
  | .withdraw_funds uid bank amount => s.withdraw_funds uid bank amount
  | .transfer sender receiver amount => s.transfer sender receiver amount
  | .apply_interest rate => s.apply_interest rate
  | .set_spending_limits uid d m => s.set_spending_limits uid d m
  | .add_payment_method uid method => s.add_payment_method uid method
  | .get_payment_methods uid => (s.get_payment_methods uid).map Prod.snd
  | .track_transactions uid fs page psize =>
      (s.track_transactions uid fs page psize).map Prod.snd
  | .real_time_update uid amount => s.real_time_update uid amount

/-- The conjunction of an operation's preconditions (the `requires` clauses
checked by its leading asserts). -/
def pre (op : Op) (s : WalletSystem) : Prop :=
  match op with
  | .create_account uid email pw =>
      ¬ uid = "" ∧ ¬ containsA s.balances uid = true ∧
      (email ≠ "" ∧ '@' ∈ email.toList) ∧ (pw ≠ "" ∧ 6 ≤ pw.length)
  | .set_pin uid pin =>
      containsA s.balances uid = true ∧ ¬ pin = "" ∧
      (4 ≤ pin.length ∧ pin.length ≤ 8) ∧ pin.toList.all Char.isDigit = true
  | .authenticate_pin uid _ => containsA s.balances uid = true
  | .add_funds uid amount =>
      containsA s.balances uid = true ∧ 0 < amount ∧ amount ≤ 1000000
  | .withdraw_funds uid bank amount =>
      containsA s.balances uid = true ∧
      (bank.toList.take 2 = "PT".toList ∧ 10 ≤ bank.length) ∧
      (0 < amount ∧ amount ≤ 10000) ∧
      amount ≤ (lookupA s.balances uid).getD 0 ∧
      0 ≤ (lookupA s.balances uid).getD 0 - amount
  | .transfer sender receiver amount =>
      (containsA s.balances sender = true ∧ containsA s.balances receiver = true) ∧
      ¬ sender = receiver ∧ 0 < amount ∧
      amount ≤ (lookupA s.balances sender).getD 0
  | .apply_interest rate => 0 < rate ∧ rate ≤ 1/5
  | .set_spending_limits uid d m =>
      containsA s.balances uid = true ∧
      (posLimit d = true ∧ posLimit m = true) ∧ ¬ dailyExceedsMonthly d m = true
  | .add_payment_method uid method =>
      containsA s.balances uid = true ∧
      (method.type = "card" ∨ method.type = "bank_account" ∨ method.type = "paypal")
  | .get_payment_methods uid => containsA s.balances uid = true
  | .track_transactions uid _ page psize =>
      containsA s.balances uid = true ∧ 1 ≤ page ∧ (1 ≤ psize ∧ psize ≤ 100)
  | .real_time_update uid amount =>
      containsA s.balances uid = true ∧ ¬ amount = 0 ∧
      (0 < amount ∨ |amount| ≤ (lookupA s.balances uid).getD 0) ∧
      0 ≤ (lookupA s.balances uid).getD 0 + amount

instance (op : Op) (s : WalletSystem) : Decidable (pre op s) := by
  cases op <;> simp only [pre] <;> infer_instance

/-- The caller-visible effect of a call: the new state on success, the old
state on rejection (a raised assert leaves the object untouched, since every
assert precedes the first mutation). -/
def applyOp (op : Op) (s : WalletSystem) : WalletSystem :=
  match step op s with
  | .ok s' => s'
  | .error _ => s

/-- A finite sequence of public calls against a wallet. -/
def run (ops : List Op) (s : WalletSystem) : WalletSystem :=
  ops.foldl (fun s op => applyOp op s) s

/-- Invariant I2: every balance in the map is non-negative. -/
def NonNeg (s : WalletSystem) : Prop :=
  ∀ p ∈ s.balances, 0 ≤ p.2

/-- State observed after a query call: the state a query returns alongside its
result, or the untouched state when the query's asserts reject the call. -/
def stateOf {α : Type} (e : Except String (α × WalletSystem)) (s : WalletSystem) :
    WalletSystem :=
  match e with
  | .ok (_, s') => s'
  | .error _ => s

section AssocLemmas

variable {β : Type}

theorem lookupA_setA_self (l : List (String × β)) (k : String) (v : β) :
    lookupA (setA l k v) k = some v := by
  induction l with
  | nil => simp [setA, lookupA]
  | cons p l ih =>
    by_cases h : p.1 = k
    · simp [setA, lookupA, h]
    · simp [setA, lookupA, h, ih]

theorem lookupA_setA_ne (l : List (String × β)) (k : String) (v : β) (k' : String)
    (h : k' ≠ k) : lookupA (setA l k v) k' = lookupA l k' := by
  have hne : k ≠ k' := fun e => h e.symm
  induction l with
  | nil => simp [setA, lookupA, hne]
  | cons p l ih =>
    by_cases hp : p.1 = k
    · subst hp
      have hne' : p.1 ≠ k' := hne
      simp [setA, lookupA, hne']
    · simp [setA, lookupA, hp, ih]

theorem keys_setA (l : List (String × β)) (k : String) (v : β)
    (h : (lookupA l k).isSome = true) :
    (setA l k v).map Prod.fst = l.map Prod.fst := by
  induction l with
  | nil => simp [lookupA] at h
  | cons p l ih =>
    by_cases hp : p.1 = k
    · simp [setA, hp]
    · simp only [lookupA, hp, if_false] at h
      simp [setA, hp, ih h]

theorem mem_setA (l : List (String × β)) (k : String) (v : β) (p : String × β)
    (h : p ∈ setA l k v) : p = (k, v) ∨ p ∈ l := by
  induction l with
  | nil => simpa [setA] using h
  | cons q l ih =>
    by_cases hq : q.1 = k
    · simp only [setA, hq, if_true, List.mem_cons] at h
      rcases h with h | h
      · exact .inl h
      · exact .inr (List.mem_cons_of_mem _ h)
    · simp only [setA, hq, if_false, List.mem_cons] at h
      rcases h with h | h
      · exact .inr (h ▸ List.mem_cons_self _ _)
      · rcases ih h with h' | h'
        · exact .inl h'
        · exact .inr (List.mem_cons_of_mem _ h')

theorem lookupA_mem (l : List (String × β)) (k : String) (v : β)
    (h : lookupA l k = some v) : (k, v) ∈ l := by
  induction l with
  | nil => simp [lookupA] at h
  | cons p l ih =>
    by_cases hp : p.1 = k
    · simp only [lookupA, hp, if_true, Option.some.injEq] at h
      subst h
      rw [← hp]
      exact List.mem_cons_self _ _
    · simp only [lookupA, hp, if_false] at h
      exact List.mem_cons_of_mem _ (ih h)

theorem lookupA_isSome_iff (l : List (String × β)) (k : String) :
    (lookupA l k).isSome = true ↔ k ∈ l.map Prod.fst := by
  induction l with
  | nil => simp [lookupA]
  | cons p l ih =>
    by_cases hp : p.1 = k
    · simp [lookupA, hp]
    · have hne : k ≠ p.1 := fun e => hp e.symm
      simp [lookupA, hp, hne, ih]

end AssocLemmas

theorem sumBal_setA (l : List (String × ℚ)) (k : String) (v w : ℚ)
    (h : lookupA l k = some v) : sumBal (setA l k w) = sumBal l - v + w := by
  induction l with
  | nil => simp [lookupA] at h
  | cons p l ih =>
    by_cases hp : p.1 = k
    · simp only [lookupA, hp, if_true, Option.some.injEq] at h
      subst h
      simp [setA, hp, sumBal]
      ring
    · simp only [lookupA, hp, if_false] at h
      simp only [setA, hp, if_false, sumBal, List.map_cons, List.sum_cons]
      have := ih h
      simp only [sumBal] at this
      rw [this]
      ring

/-- C1: for every wallet state and every call `transfer(sender, receiver,
amount)` whose preconditions hold (both accounts exist, sender ≠ receiver,
amount > 0, balance[sender] ≥ amount), the call succeeds, decreases the
sender's balance by `amount`, increases the receiver's balance by `amount`,
leaves every other account's balance unchanged, and leaves the sum of all
balances exactly unchanged. -/
theorem transfer_conservation (s : WalletSystem) (sender receiver : String)
    (amount bs br : ℚ)
    (hs : lookupA s.balances sender = some bs)
    (hr : lookupA s.balances receiver = some br)
    (hne : sender ≠ receiver) (hpos : 0 < amount) (hle : amount ≤ bs) :
    ∃ s', s.transfer sender receiver amount = Except.ok s' ∧
      lookupA s'.balances sender = some (bs - amount) ∧
      lookupA s'.balances receiver = some (br + amount) ∧
      (∀ u, u ≠ sender → u ≠ receiver → lookupA s'.balances u = lookupA s.balances u) ∧
      sumBal s'.balances = sumBal s.balances := by
  have hcs : containsA s.balances sender = true := by simp [containsA, hs]
  have hcr : containsA s.balances receiver = true := by simp [containsA, hr]
  have hrs : receiver ≠ sender := fun e => hne e.symm
  rw [WalletSystem.transfer, if_neg (not_not_intro ⟨hcs, hcr⟩), if_neg hne,
    if_neg (not_not_intro hpos), if_neg (not_not_intro (by rw [hs]; exact hle))]
  simp only [hs, hr, Option.getD_some]
  refine ⟨_, rfl, ?_, ?_, ?_, ?_⟩
  · rw [lookupA_setA_ne _ _ _ _ hne, lookupA_setA_self]
  · rw [lookupA_setA_self]
  · intro u hus hur
    rw [lookupA_setA_ne _ _ _ _ hur, lookupA_setA_ne _ _ _ _ hus]
  · rw [sumBal_setA _ receiver br _ (by rw [lookupA_setA_ne _ _ _ _ hrs]; exact hr),
      sumBal_setA _ sender bs _ hs]
    ring

/-- Witness: C1 applied to the concrete state with balances a ↦ 5, b ↦ 1 and
the call transfer(a, b, 3). -/
theorem transfer_conservation_witness :
    ∃ s', (WalletSystem.mk [("a", 5), ("b", 1)] [] [] [] [] 0 0).transfer "a" "b" 3 =
        Except.ok s' ∧
      lookupA s'.balances "a" = some 2 ∧ lookupA s'.balances "b" = some 4 := by
  obtain ⟨s', h1, h2, h3, -, -⟩ :=
    transfer_conservation (WalletSystem.mk [("a", 5), ("b", 1)] [] [] [] [] 0 0)
      "a" "b" 3 5 1 (by decide) (by decide) (by decide) (by norm_num) (by norm_num)
  exact ⟨s', h1, by rw [h2]; norm_num, by rw [h3]; norm_num⟩

/-- C7: the read-only operations `authenticate_pin`, `get_payment_methods`
and `track_transactions` leave every component of the wallet state unchanged:
the state observed after any such call (accepted or rejected) equals the
state before it. -/
theorem readonly_queries_pure (s : WalletSystem) (u1 pin u2 u3 : String)
    (filters : List (String × TVal)) (page page_size : ℕ) :
    stateOf (s.authenticate_pin u1 pin) s = s ∧
    stateOf (s.get_payment_methods u2) s = s ∧
    stateOf (s.track_transactions u3 filters page page_size) s = s := by
  refine ⟨?_, ?_, ?_⟩
  · unfold WalletSystem.authenticate_pin
    split_ifs <;> rfl
  · unfold WalletSystem.get_payment_methods
    split_ifs <;> rfl
  · unfold WalletSystem.track_transactions
    split_ifs <;> rfl

/-- C9: the password passed to `create_account` influences only whether the
call is accepted, never the resulting state — for any two valid passwords the
two calls return literally the same outcome, so no component of the state can
depend on (or store) the password. -/
theorem create_account_password_not_stored (s : WalletSystem)
    (user_id email p1 p2 : String)
    (h1 : p1 ≠ "" ∧ 6 ≤ p1.length) (h2 : p2 ≠ "" ∧ 6 ≤ p2.length) :
    s.create_account user_id email p1 = s.create_account user_id email p2 := by
  unfold WalletSystem.create_account
  rw [if_neg (not_not_intro h1), if_neg (not_not_intro h2)]

/-- Witness: C9 applied to the empty wallet with passwords abcdef and
ghijklmn. -/
theorem create_account_password_not_stored_witness :
    initWallet.create_account "u" "u@mail.com" "abcdef" =
      initWallet.create_account "u" "u@mail.com" "ghijklmn" :=
  create_account_password_not_stored initWallet "u" "u@mail.com" "abcdef" "ghijklmn"
    (by decide) (by decide)

/-- C10: for an existing account with no PIN record, `authenticate_pin`
returns False for every pin string, without raising and without mutating any
state (`None == pin` is False in the code). -/
theorem authenticate_pin_no_record (s : WalletSystem) (user_id pin : String)
    (hu : containsA s.balances user_id = true)
    (hp : lookupA s.user_pins user_id = none) :
    s.authenticate_pin user_id pin = Except.ok (false, s) := by
  unfold WalletSystem.authenticate_pin
  rw [if_neg (not_not_intro hu), hp]
  rfl

/-- Witness: C10 applied to a wallet holding the account a and no PIN
records. -/
theorem authenticate_pin_no_record_witness :
    (WalletSystem.mk [("a", 0)] [] [] [] [] 0 0).authenticate_pin "a" "1234" =
      Except.ok (false, WalletSystem.mk [("a", 0)] [] [] [] [] 0 0) :=
  authenticate_pin_no_record _ "a" "1234" (by decide) (by decide)

theorem interest_fold_append (rate : ℚ) (ks : List String) :
    ∀ s : WalletSystem, ∃ ts,
      (ks.foldl (interestStep rate) s).transactions = s.transactions ++ ts ∧
      ∀ t ∈ ts, t.status = "completed" ∧ t.type = "interest" := by
  induction ks with
  | nil => intro s; exact ⟨[], by simp, by simp⟩
  | cons k ks ih =>
    intro s
    obtain ⟨ts, h1, h2⟩ := ih (interestStep rate s k)
    refine ⟨({ id := s.nextId, type := "interest", user_id := some k
             , amount := ((lookupA s.balances k).getD 0) * rate, timestamp := s.clock
             , status := "completed", fromUser := none, toUser := none
             , destination := none } : Tx) :: ts, ?_, ?_⟩
    · rw [List.foldl_cons, h1]
      show (interestStep rate s k).transactions ++ ts = _
      rw [interestStep]
      simp
    · intro t ht
      rcases List.mem_cons.mp ht with h | h
      · subst h
        exact ⟨rfl, rfl⟩
      · exact h2 t h

/-- C8: the transaction log is append-only — every public call (accepted or
rejected) leaves the log equal to the old log with zero or more new records
appended at the end, each appended record carrying status completed. -/
theorem transactions_append_only (op : Op) (s : WalletSystem) :
    ∃ ts, (applyOp op s).transactions = s.transactions ++ ts ∧
      ∀ t ∈ ts, t.status = "completed" := by
  cases op with
  | apply_interest rate =>
    simp only [applyOp, step, WalletSystem.apply_interest]
    split_ifs with h
    · obtain ⟨ts, h1, h2⟩ := interest_fold_append rate (s.balances.map Prod.fst) s
      exact ⟨ts, h1, fun t ht => (h2 t ht).1⟩
    · exact ⟨[], by simp, by simp⟩
  | _ =>
    simp only [applyOp, step, WalletSystem.create_account, WalletSystem.set_pin,
      WalletSystem.authenticate_pin, WalletSystem.add_funds,
      WalletSystem.withdraw_funds, WalletSystem.transfer,
      WalletSystem.set_spending_limits, WalletSystem.add_payment_method,
      WalletSystem.get_payment_methods, WalletSystem.track_transactions,
      WalletSystem.real_time_update]
    split_ifs <;>
      first
        | (refine ⟨[], ?_, ?_⟩ <;> (simp [Except.map]; done))
        | (exact ⟨_, rfl, by intro t ht; rw [List.mem_singleton] at ht; subst ht; rfl⟩)

theorem nonneg_getD (l : List (String × ℚ)) (k : String) (h : ∀ p ∈ l, 0 ≤ p.2) :
    0 ≤ (lookupA l k).getD 0 := by
  cases hl : lookupA l k with
  | none => simp
  | some v => simpa using h _ (lookupA_mem l k v hl)

theorem interest_fold_nonneg (rate : ℚ) (hr : 0 ≤ rate) (ks : List String) :
    ∀ s : WalletSystem, (∀ p ∈ s.balances, 0 ≤ p.2) →
      ∀ p ∈ (ks.foldl (interestStep rate) s).balances, 0 ≤ p.2 := by
  induction ks with
  | nil => intro s h; exact h
  | cons k ks ih =>
    intro s h
    rw [List.foldl_cons]
    apply ih
    intro p hp
    rcases mem_setA _ _ _ _ hp with rfl | hmem
    · show 0 ≤ (lookupA s.balances k).getD 0 + (lookupA s.balances k).getD 0 * rate
      have h0 := nonneg_getD s.balances k h
      have h1 := mul_nonneg h0 hr
      linarith
    · exact h p hmem

theorem applyOp_nonneg (op : Op) (s : WalletSystem) (h : NonNeg s) :
    NonNeg (applyOp op s) := by
  cases op with
  | create_account uid email pw =>
    simp only [applyOp, step, WalletSystem.create_account]
    split_ifs <;>
      first
        | exact h
        | (intro p hp
           rcases mem_setA _ _ _ _ hp with rfl | hmem
           · exact le_refl 0
           · exact h p hmem)
  | add_funds uid amount =>
    simp only [applyOp, step, WalletSystem.add_funds]
    split_ifs <;>
      first
        | exact h
        | (intro p hp
           rcases mem_setA _ _ _ _ hp with rfl | hmem
           · show 0 ≤ (lookupA s.balances uid).getD 0 + amount
             have h0 := nonneg_getD s.balances uid h
             linarith
           · exact h p hmem)
  | withdraw_funds uid bank amount =>
    simp only [applyOp, step, WalletSystem.withdraw_funds]
    split_ifs <;>
      first
        | exact h
        | (intro p hp
           rcases mem_setA _ _ _ _ hp with rfl | hmem
           · show 0 ≤ (lookupA s.balances uid).getD 0 - amount
             linarith
           · exact h p hmem)
  | transfer sender receiver amount =>
    simp only [applyOp, step, WalletSystem.transfer]
    split_ifs <;>
      first
        | exact h
        | (intro p hp
           rcases mem_setA _ _ _ _ hp with rfl | hmem
           · show 0 ≤ (lookupA s.balances receiver).getD 0 + amount
             have h0 := nonneg_getD s.balances receiver h
             linarith
           · rcases mem_setA _ _ _ _ hmem with rfl | hmem2
             · show 0 ≤ (lookupA s.balances sender).getD 0 - amount
               linarith
             · exact h p hmem2)
  | apply_interest rate =>
    simp only [applyOp, step, WalletSystem.apply_interest]
    split_ifs <;>
      first
        | exact h
        | (rename_i hr
           exact interest_fold_nonneg rate hr.1.le _ s h)
  | real_time_update uid amount =>
    simp only [applyOp, step, WalletSystem.real_time_update]
    split_ifs <;>
      first
        | exact h
        | (intro p hp
           rcases mem_setA _ _ _ _ hp with rfl | hmem
           · show 0 ≤ (lookupA s.balances uid).getD 0 + amount
             linarith
           · exact h p hmem)
  | set_pin uid pin =>
    simp only [applyOp, step, WalletSystem.set_pin]
    split_ifs <;> exact h
  | authenticate_pin uid pin =>
    simp only [applyOp, step, WalletSystem.authenticate_pin]
    split_ifs <;> exact h
  | set_spending_limits uid d m =>
    simp only [applyOp, step, WalletSystem.set_spending_limits]
    split_ifs <;> exact h
  | add_payment_method uid method =>
    simp only [applyOp, step, WalletSystem.add_payment_method]
    split_ifs <;> exact h
  | get_payment_methods uid =>
    simp only [applyOp, step, WalletSystem.get_payment_methods]
    split_ifs <;> exact h
  | track_transactions uid fs page psize =>
    simp only [applyOp, step, WalletSystem.track_transactions]
    split_ifs <;> exact h

theorem run_nonneg (ops : List Op) : ∀ s : WalletSystem, NonNeg s → NonNeg (run ops s) := by
  induction ops with
  | nil => intro s h; exact h
  | cons op ops ih =>
    intro s h
    exact ih _ (applyOp_nonneg op s h)

/-- C2: for every finite sequence of public operations starting from a fresh
wallet (rejected calls leaving the state untouched), every account's balance
in the resulting state is non-negative — invariant I2 holds in every
reachable state. -/
theorem reachable_balances_nonneg (ops : List Op) (u : String) (v : ℚ)
    (h : lookupA (run ops initWallet).balances u = some v) : 0 ≤ v := by
  have hnn : NonNeg (run ops initWallet) := by
    apply run_nonneg
    intro p hp
    simp [initWallet] at hp
  simpa using hnn _ (lookupA_mem _ _ _ h)

/-- Witness: C2 applied to the one-call sequence that creates account a; the
fresh account's balance is 0 and indeed non-negative. -/
theorem reachable_balances_nonneg_witness :
    lookupA (run [Op.create_account "a" "a@mail.com" "secret1"] initWallet).balances "a" =
        some 0 ∧ (0 : ℚ) ≤ 0 :=
  ⟨by decide, reachable_balances_nonneg [Op.create_account "a" "a@mail.com" "secret1"]
    "a" 0 (by decide)⟩

theorem add_funds_ok (s : WalletSystem) (u : String) (amount bu : ℚ)
    (hb : lookupA s.balances u = some bu)
    (hpos : 0 < amount) (hcap : amount ≤ 1000000) :
    s.add_funds u amount = Except.ok { s with
      balances := setA s.balances u (bu + amount)
    , transactions := s.transactions ++
        [{ id := s.nextId, type := "deposit", user_id := some u
         , amount := amount, timestamp := s.clock, status := "completed"
         , fromUser := none, toUser := none, destination := none }]
    , nextId := s.nextId + 1, clock := s.clock + 1 } := by
  have hcu : containsA s.balances u = true := by simp [containsA, hb]
  rw [WalletSystem.add_funds, if_neg (not_not_intro hcu), if_neg (not_not_intro hpos),
    if_neg (not_not_intro hcap)]
  simp only [hb, Option.getD_some]

theorem withdraw_funds_ok (s : WalletSystem) (u bank : String) (amount bu : ℚ)
    (hb : lookupA s.balances u = some bu)
    (hbank : bank.toList.take 2 = "PT".toList ∧ 10 ≤ bank.length)
    (hpos : 0 < amount) (hle : amount ≤ 10000) (hfund : amount ≤ bu) :
    s.withdraw_funds u bank amount = Except.ok { s with
      balances := setA s.balances u (bu - amount)
    , transactions := s.transactions ++
        [{ id := s.nextId, type := "withdrawal", user_id := some u
         , amount := amount, timestamp := s.clock, status := "completed"
         , fromUser := none, toUser := none, destination := some bank }]
    , nextId := s.nextId + 1, clock := s.clock + 1 } := by
  have hcu : containsA s.balances u = true := by simp [containsA, hb]
  rw [WalletSystem.withdraw_funds, if_neg (not_not_intro hcu), if_neg (not_not_intro hbank),
    if_neg (not_not_intro ⟨hpos, hle⟩),
    if_neg (not_not_intro (by simp only [hb, Option.getD_some]; exact hfund)),
    if_neg (not_not_intro (by simp only [hb, Option.getD_some]; linarith))]
  simp only [hb, Option.getD_some]

/-- C5: for an existing account with a non-negative balance, an amount with
0 < amount ≤ 10000 and a valid bank account string, `add_funds` followed by
`withdraw_funds` of the same amount both succeed, return the balance to
exactly its original value, and append exactly two transactions to the
log. -/
theorem add_then_withdraw_roundtrip (s : WalletSystem) (u bank : String) (amount b : ℚ)
    (hb : lookupA s.balances u = some b) (hbnn : 0 ≤ b)
    (hpos : 0 < amount) (hle : amount ≤ 10000)
    (hbank : bank.toList.take 2 = "PT".toList ∧ 10 ≤ bank.length) :
    ∃ s₁ s₂, s.add_funds u amount = Except.ok s₁ ∧
      s₁.withdraw_funds u bank amount = Except.ok s₂ ∧
      lookupA s₂.balances u = some b ∧
      ∃ t₁ t₂, s₂.transactions = s.transactions ++ [t₁, t₂] := by
  obtain ⟨s₁, h1, hbal1, t₁, htx1⟩ :
      ∃ s₁, s.add_funds u amount = Except.ok s₁ ∧
        s₁.balances = setA s.balances u (b + amount) ∧
        ∃ t₁, s₁.transactions = s.transactions ++ [t₁] :=
    ⟨_, add_funds_ok s u amount b hb hpos (le_trans hle (by norm_num)), rfl, _, rfl⟩
  have hlook : lookupA s₁.balances u = some (b + amount) := by
    rw [hbal1]
    exact lookupA_setA_self _ _ _
  obtain ⟨s₂, h2, hbal2, t₂, htx2⟩ :
      ∃ s₂, s₁.withdraw_funds u bank amount = Except.ok s₂ ∧
        s₂.balances = setA s₁.balances u (b + amount - amount) ∧
        ∃ t₂, s₂.transactions = s₁.transactions ++ [t₂] :=
    ⟨_, withdraw_funds_ok s₁ u bank amount (b + amount) hlook hbank hpos hle (by linarith),
      rfl, _, rfl⟩
  refine ⟨s₁, s₂, h1, h2, ?_, ?_⟩
  · rw [hbal2, lookupA_setA_self]
    exact congrArg some (by ring)
  · exact ⟨t₁, t₂, by rw [htx2, htx1, List.append_assoc]; rfl⟩

/-- Witness: C5 applied to a wallet where account a holds balance 2, with
amount 3 and bank account PT12345678. -/
theorem add_then_withdraw_roundtrip_witness :
    ∃ s₁ s₂, (WalletSystem.mk [("a", 2)] [] [] [] [] 0 0).add_funds "a" 3 = Except.ok s₁ ∧
      s₁.withdraw_funds "a" "PT12345678" 3 = Except.ok s₂ ∧
      lookupA s₂.balances "a" = some 2 ∧
      ∃ t₁ t₂, s₂.transactions =
        (WalletSystem.mk [("a", 2)] [] [] [] [] 0 0).transactions ++ [t₁, t₂] :=
  add_then_withdraw_roundtrip (WalletSystem.mk [("a", 2)] [] [] [] [] 0 0)
    "a" "PT12345678" 3 2 (by decide) (by decide) (by decide) (by decide) (by decide)

theorem tget_user (t : Tx) : t.get "user_id" = t.user_id.map TVal.s := rfl

theorem tget_from (t : Tx) : t.get "from" = t.fromUser.map TVal.s := rfl

theorem tget_to (t : Tx) : t.get "to" = t.toUser.map TVal.s := rfl

theorem mem_foldl_filter (fs : List (String × TVal)) :
    ∀ (l : List Tx) (t : Tx),
      t ∈ fs.foldl (fun acc kv => acc.filter (fun t => t.get kv.1 == some kv.2)) l →
      t ∈ l := by
  induction fs with
  | nil => intro l t h; exact h
  | cons kv fs ih =>
    intro l t h
    rw [List.foldl_cons] at h
    exact List.mem_of_mem_filter (ih _ t h)

theorem beq_map_tval_s (o : Option String) (u : String) :
    (o.map TVal.s == some (TVal.s u)) = true ↔ o = some u := by
  cases o <;> simp

theorem tx_party_of_filter (u : String) (t : Tx)
    (h : (t.get "user_id" == some (TVal.s u) || t.get "from" == some (TVal.s u) ||
      t.get "to" == some (TVal.s u)) = true) :
    t.user_id = some u ∨ t.fromUser = some u ∨ t.toUser = some u := by
  rw [tget_user, tget_from, tget_to, Bool.or_eq_true, Bool.or_eq_true] at h
  rcases h with (h | h) | h
  · exact .inl ((beq_map_tval_s _ u).mp h)
  · exact .inr (.inl ((beq_map_tval_s _ u).mp h))
  · exact .inr (.inr ((beq_map_tval_s _ u).mp h))

/-- C6: for an existing account, a page ≥ 1 and 1 ≤ page_size ≤ 100,
`track_transactions` succeeds without touching the state, returns at most
`page_size` entries, every returned transaction names the user as its sole
party, sender or receiver, and the entries come in non-increasing timestamp
order. -/
theorem track_transactions_spec (s : WalletSystem) (user_id : String)
    (filters : List (String × TVal)) (page page_size : ℕ)
    (hu : containsA s.balances user_id = true)
    (hp : 1 ≤ page) (hps : 1 ≤ page_size ∧ page_size ≤ 100) :
    ∃ res, s.track_transactions user_id filters page page_size = Except.ok (res, s) ∧
      res.length ≤ page_size ∧
      (∀ t ∈ res, t.user_id = some user_id ∨ t.fromUser = some user_id ∨
        t.toUser = some user_id) ∧
      res.Pairwise (fun a b => b.timestamp ≤ a.timestamp) := by
  rw [WalletSystem.track_transactions, if_neg (not_not_intro hu),
    if_neg (not_not_intro hp), if_neg (not_not_intro hps)]
  refine ⟨_, rfl, ?_, ?_, ?_⟩
  · exact List.length_take_le _ _
  · intro t ht
    have h1 := List.drop_subset _ _ (List.take_subset _ _ ht)
    have h2 := List.mem_mergeSort.mp h1
    have h3 := mem_foldl_filter filters _ t h2
    exact tx_party_of_filter user_id t (List.mem_filter.mp h3).2
  · have htrans : ∀ a b c : Tx, (decide (b.timestamp ≤ a.timestamp)) = true →
        (decide (c.timestamp ≤ b.timestamp)) = true →
        (decide (c.timestamp ≤ a.timestamp)) = true := by
      intro a b c hab hbc
      simp only [decide_eq_true_eq] at *
      omega
    have htotal : ∀ a b : Tx, ((decide (b.timestamp ≤ a.timestamp)) ||
        (decide (a.timestamp ≤ b.timestamp))) = true := by
      intro a b
      simp only [Bool.or_eq_true, decide_eq_true_eq]
      omega
    have hsorted := List.sorted_mergeSort htrans htotal
      (List.foldl (fun acc kv => acc.filter (fun t => t.get kv.1 == some kv.2))
        (s.transactions.filter (fun t =>
          t.get "user_id" == some (TVal.s user_id) ||
          t.get "from" == some (TVal.s user_id) ||
          t.get "to" == some (TVal.s user_id))) filters)
    exact ((hsorted.sublist ((List.take_sublist _ _).trans
      (List.drop_sublist _ _))).imp (fun hb => of_decide_eq_true hb))

/-- Witness: C6 applied to a wallet with one account and an empty transaction
log, for page 1 of size 10. -/
theorem track_transactions_spec_witness :
    ∃ res, (WalletSystem.mk [("a", 0)] [] [] [] [] 0 0).track_transactions "a" [] 1 10 =
        Except.ok (res, WalletSystem.mk [("a", 0)] [] [] [] [] 0 0) ∧
      res.length ≤ 10 ∧
      (∀ t ∈ res, t.user_id = some "a" ∨ t.fromUser = some "a" ∨ t.toUser = some "a") ∧
      res.Pairwise (fun a b => b.timestamp ≤ a.timestamp) :=
  track_transactions_spec (WalletSystem.mk [("a", 0)] [] [] [] [] 0 0) "a" [] 1 10
    (by decide) (by decide) (by decide)

theorem sum_lookup_keys (l : List (String × ℚ)) (h : (l.map Prod.fst).Nodup) :
    ((l.map Prod.fst).map (fun k => (lookupA l k).getD 0)).sum = sumBal l := by
  induction l with
  | nil => simp [sumBal]
  | cons p l ih =>
    have h' : (p.1 :: l.map Prod.fst).Nodup := by simpa using h
    obtain ⟨hp, hnd⟩ := List.nodup_cons.mp h'
    have hcong : (l.map Prod.fst).map (fun k => (lookupA (p :: l) k).getD 0) =
        (l.map Prod.fst).map (fun k => (lookupA l k).getD 0) := by
      apply List.map_congr_left
      intro k hk
      have hne : ¬ p.1 = k := fun e => hp (e ▸ hk)
      simp [lookupA, hne]
    rw [List.map_cons, List.map_cons, List.sum_cons, hcong, ih hnd]
    have hself : lookupA (p :: l) p.1 = some p.2 := by simp [lookupA]
    rw [hself]
    simp [sumBal]

theorem interest_fold_main (rate : ℚ) (ks : List String) :
    ∀ s : WalletSystem, ks.Nodup →
      (∀ k ∈ ks, k ∈ s.balances.map Prod.fst) →
      (∀ k, k ∉ ks →
        lookupA (ks.foldl (interestStep rate) s).balances k = lookupA s.balances k) ∧
      (∀ k ∈ ks, lookupA (ks.foldl (interestStep rate) s).balances k =
        some (((lookupA s.balances k).getD 0) * (1 + rate))) ∧
      (ks.foldl (interestStep rate) s).balances.map Prod.fst = s.balances.map Prod.fst ∧
      sumBal (ks.foldl (interestStep rate) s).balances =
        sumBal s.balances + rate * ((ks.map (fun k => (lookupA s.balances k).getD 0)).sum) ∧
      ∃ ts, (ks.foldl (interestStep rate) s).transactions = s.transactions ++ ts ∧
        ts.map Tx.user_id = ks.map some ∧ ∀ t ∈ ts, t.type = "interest" := by
  induction ks with
  | nil =>
    intro s _ _
    exact ⟨fun k _ => rfl, fun k hk => absurd hk (List.not_mem_nil k), rfl, by simp,
      ⟨[], by simp, rfl, by simp⟩⟩
  | cons k ks ih =>
    intro s hnd hmem
    obtain ⟨hknotin, hnd'⟩ := List.nodup_cons.mp hnd
    have hk0 : k ∈ s.balances.map Prod.fst := hmem k (List.mem_cons_self k ks)
    have hsome : (lookupA s.balances k).isSome = true := (lookupA_isSome_iff _ _).mpr hk0
    obtain ⟨bk, hbk⟩ := Option.isSome_iff_exists.mp hsome
    have hbal1 : (interestStep rate s k).balances = setA s.balances k (bk + bk * rate) := by
      simp [interestStep, hbk]
    have hlook1self : lookupA (interestStep rate s k).balances k = some (bk + bk * rate) := by
      rw [hbal1]
      exact lookupA_setA_self _ _ _
    have hlook1ne : ∀ k', k' ≠ k →
        lookupA (interestStep rate s k).balances k' = lookupA s.balances k' := by
      intro k' hk'
      rw [hbal1]
      exact lookupA_setA_ne _ _ _ _ hk'
    have hkeys1 : (interestStep rate s k).balances.map Prod.fst =
        s.balances.map Prod.fst := by
      rw [hbal1]
      exact keys_setA _ _ _ hsome
    have hsum1 : sumBal (interestStep rate s k).balances = sumBal s.balances + rate * bk := by
      rw [hbal1, sumBal_setA _ _ _ _ hbk]
      ring
    obtain ⟨IH1, IH2, IH3, IH4, ts, IHt1, IHt2, IHt3⟩ :=
      ih (interestStep rate s k) hnd' (by
        intro k' hk'
        rw [hkeys1]
        exact hmem k' (List.mem_cons_of_mem _ hk'))
    refine ⟨?_, ?_, ?_, ?_, ?_⟩
    · intro k' hk'
      have h1 : k' ∉ ks := fun h => hk' (List.mem_cons_of_mem _ h)
      have h2 : k' ≠ k := fun h => hk' (h ▸ List.mem_cons_self _ _)
      rw [List.foldl_cons, IH1 k' h1, hlook1ne k' h2]
    · intro k' hk'
      rw [List.foldl_cons]
      rcases List.mem_cons.mp hk' with rfl | hk2
      · rw [IH1 k' hknotin, hlook1self, hbk]
        simp only [Option.getD_some]
        exact congrArg some (by ring)
      · have hne : k' ≠ k := fun h => hknotin (h ▸ hk2)
        rw [IH2 k' hk2, hlook1ne k' hne]
    · rw [List.foldl_cons, IH3, hkeys1]
    · rw [List.foldl_cons, IH4]
      have hcong : ks.map (fun k' => (lookupA (interestStep rate s k).balances k').getD 0) =
          ks.map (fun k' => (lookupA s.balances k').getD 0) := by
        apply List.map_congr_left
        intro k' hk2
        have hne : k' ≠ k := fun h => hknotin (h ▸ hk2)
        rw [hlook1ne k' hne]
      rw [hcong, hsum1, List.map_cons, List.sum_cons, hbk]
      simp only [Option.getD_some]
      ring
    · refine ⟨({ id := s.nextId, type := "interest", user_id := some k
               , amount := ((lookupA s.balances k).getD 0) * rate, timestamp := s.clock
               , status := "completed", fromUser := none, toUser := none
               , destination := none } : Tx) :: ts, ?_, ?_, ?_⟩
      · rw [List.foldl_cons, IHt1]
        show (interestStep rate s k).transactions ++ ts = _
        rw [interestStep]
        simp
      · rw [List.map_cons, IHt2, List.map_cons]
      · intro t ht
        rcases List.mem_cons.mp ht with rfl | h
        · rfl
        · exact IHt3 t h

/-- C4: for every wallet state with unique account ids (as Python dict keys
are) and every rate with 0 < rate ≤ 1/5, `apply_interest(rate)` succeeds,
multiplies every existing account's balance by exactly (1 + rate), multiplies
the sum of all balances by exactly (1 + rate), and appends exactly one
`interest` transaction per existing account, in iteration order of the
accounts. -/
theorem apply_interest_spec (s : WalletSystem) (rate : ℚ)
    (hwf : (s.balances.map Prod.fst).Nodup) (hr1 : 0 < rate) (hr2 : rate ≤ 1/5) :
    ∃ s', s.apply_interest rate = Except.ok s' ∧
      (∀ u v, lookupA s.balances u = some v →
        lookupA s'.balances u = some (v * (1 + rate))) ∧
      sumBal s'.balances = (1 + rate) * sumBal s.balances ∧
      ∃ ts, s'.transactions = s.transactions ++ ts ∧
        ts.map Tx.user_id = (s.balances.map Prod.fst).map some ∧
        ∀ t ∈ ts, t.type = "interest" := by
  rw [WalletSystem.apply_interest, if_neg (not_not_intro ⟨hr1, hr2⟩)]
  obtain ⟨H1, H2, H3, H4, ts, Ht1, Ht2, Ht3⟩ :=
    interest_fold_main rate (s.balances.map Prod.fst) s hwf (fun k hk => hk)
  refine ⟨_, rfl, ?_, ?_, ⟨ts, Ht1, Ht2, Ht3⟩⟩
  · intro u v hv
    have hu : u ∈ s.balances.map Prod.fst := (lookupA_isSome_iff _ _).mp (by simp [hv])
    rw [H2 u hu, hv]
    simp
  · rw [H4, sum_lookup_keys s.balances hwf]
    ring

/-- Witness: C4 applied to a wallet holding the single account a with balance
10 and rate 1/10; the total scales by 11/10. -/
theorem apply_interest_spec_witness :
    ∃ s', (WalletSystem.mk [("a", 10)] [] [] [] [] 0 0).apply_interest (1/10) =
        Except.ok s' ∧
      sumBal s'.balances =
        (1 + 1/10) * sumBal (WalletSystem.mk [("a", 10)] [] [] [] [] 0 0).balances := by
  obtain ⟨s', h1, -, h3, -⟩ :=
    apply_interest_spec (WalletSystem.mk [("a", 10)] [] [] [] [] 0 0) (1/10)
      (by decide) (by norm_num) (by norm_num)
  exact ⟨s', h1, h3⟩

/-- C3: for every public operation and every state in which one of the
operation's preconditions fails, the call is rejected (the leading asserts
raise before any mutation) and the entire wallet state after the rejected
call is identical to the state before it. -/
theorem rejected_call_no_state_change (op : Op) (s : WalletSystem) (h : ¬ pre op s) :
    (∃ msg, step op s = Except.error msg) ∧ applyOp op s = s := by
  have herr : ∃ msg, step op s = Except.error msg := by
    cases op with
    | create_account uid email pw =>
      simp only [pre] at h
      simp only [step, WalletSystem.create_account]
      split_ifs <;> first | exact ⟨_, rfl⟩ | tauto
    | set_pin uid pin =>
      simp only [pre] at h
      simp only [step, WalletSystem.set_pin]
      split_ifs <;> first | exact ⟨_, rfl⟩ | tauto
    | authenticate_pin uid pin =>
      simp only [pre] at h
      simp only [step, WalletSystem.authenticate_pin]
      split_ifs <;> first | exact ⟨_, rfl⟩ | tauto
    | add_funds uid amount =>
      simp only [pre] at h
      simp only [step, WalletSystem.add_funds]
      split_ifs <;> first | exact ⟨_, rfl⟩ | tauto
    | withdraw_funds uid bank amount =>
      simp only [pre] at h
      simp only [step, WalletSystem.withdraw_funds]
      split_ifs <;> first | exact ⟨_, rfl⟩ | tauto
    | transfer sender receiver amount =>
      simp only [pre] at h
      simp only [step, WalletSystem.transfer]
      split_ifs <;> first | exact ⟨_, rfl⟩ | tauto
    | apply_interest rate =>
      simp only [pre] at h
      simp only [step, WalletSystem.apply_interest]
      split_ifs <;> first | exact ⟨_, rfl⟩ | tauto
    | set_spending_limits uid d m =>
      simp only [pre] at h
      simp only [step, WalletSystem.set_spending_limits]
      split_ifs <;> first | exact ⟨_, rfl⟩ | tauto
    | add_payment_method uid method =>
      simp only [pre] at h
      simp only [step, WalletSystem.add_payment_method]
      split_ifs <;> first | exact ⟨_, rfl⟩ | tauto
    | get_payment_methods uid =>
      simp only [pre] at h
      simp only [step, WalletSystem.get_payment_methods]
      split_ifs <;> first | exact ⟨_, rfl⟩ | tauto
    | track_transactions uid fs page psize =>
      simp only [pre] at h
      simp only [step, WalletSystem.track_transactions]
      split_ifs <;> first | exact ⟨_, rfl⟩ | tauto
    | real_time_update uid amount =>
      simp only [pre] at h
      simp only [step, WalletSystem.real_time_update]
      split_ifs <;> first | exact ⟨_, rfl⟩ | tauto
  obtain ⟨msg, hm⟩ := herr
  refine ⟨⟨msg, hm⟩, ?_⟩
  simp [applyOp, hm]

/-- Witness: C3 applied to a withdrawal from the empty wallet (the account
does not exist, the bank account is invalid, and the balance is
insufficient). -/
theorem rejected_call_no_state_change_witness :
    (∃ msg, step (Op.withdraw_funds "a" "X" 5) initWallet = Except.error msg) ∧
      applyOp (Op.withdraw_funds "a" "X" 5) initWallet = initWallet :=
  rejected_call_no_state_change (Op.withdraw_funds "a" "X" 5) initWallet (by decide)

end Wallet
